import Mathlib

/-!
Verification of the notes-ext browser extension's core logic:
the domain-scoped site-enablement matcher (`isUrlDisabled`,
`toggleSiteEnabled`), the image-candidate scorer (`findBestImage`,
`isPlaceholderImage`), and the capture item-limit check
(`checkStorageAvailable` and the capture handlers).

The JavaScript string primitives the source relies on
(`hostname.split('.')`, `Array.join('.')`, `String.startsWith`) are
modelled over the character lists underlying Lean strings so that every
definition evaluates inside the kernel.  The platform `URL` parser is an
external collaborator and is passed in as a function argument: `new
URL(u)` throwing corresponds to the argument returning `none`.
-/

namespace NotesExt

/-! ## String primitives (models of the JS built-ins used by the source) -/

/-- Model of JS `s.split('.')` on the character level: splitting an empty
string yields `[[]]`, and every `'.'` starts a new (possibly empty) label. -/
def splitDotsChars : List Char → List (List Char)
  | [] => [[]]
  | c :: cs =>
    if c = '.' then [] :: splitDotsChars cs
    else match splitDotsChars cs with
      | [] => [[c]]
      | l :: ls => (c :: l) :: ls

/-- Model of JS `hostname.split('.')`. -/
def splitDots (s : String) : List String :=
  (splitDotsChars s.data).map (fun l => String.mk l)

/-- Model of JS `parts.join('.')`. -/
def joinDots : List String → String
  | [] => ""
  | [s] => s
  | s :: ss => s ++ "." ++ joinDots ss

/-- Model of JS `s.startsWith(pre)`. -/
def strStartsWith (s pre : String) : Bool :=
  pre.data.isPrefixOf s.data

/-! ## Domain matcher (src/unnamed/part_004 `isUrlDisabled`,
src/unnamed/part_001 `toggleSiteEnabled`) -/

/-- Result of the platform's `new URL(...)` parser: the two fields the
source reads. -/
structure Url where
  protocol : String
  hostname : String
deriving DecidableEq

/-- The internal-scheme test from `isUrlDisabled`:
`urlObj.protocol === 'about:' || 'chrome:' || 'moz-extension:'`. -/
def internalProtocol (p : String) : Bool :=
  p = "about:" || p = "chrome:" || p = "moz-extension:"

/-- `parts.slice(i).join('.')`, the domain string tested at loop index `i`. -/
def domCheck (parts : List String) (i : Nat) : String :=
  joinDots (parts.drop i)

/-- The suffix loop of `isUrlDisabled`:
`for (let i = 0; i <= parts.length - 2; i++) if (disabledDomains.includes(parts.slice(i).join('.'))) return true`. -/
def suffixLoop (parts ds : List String) : Bool :=
  (List.range (parts.length - 1)).any (fun i => ds.contains (domCheck parts i))

/-- `isUrlDisabled(url, disabledDomains)` from src/unnamed/part_004.
`parse` models the platform `URL` constructor; `parse url = none` models
`new URL(url)` throwing (the `catch` branch). -/
def isUrlDisabled (parse : String → Option Url) (url : String)
    (disabledDomains : List String) : Bool :=
  if url = "" then false
  else if disabledDomains = [] then false
  else
    match parse url with
    | none => false
    | some urlObj =>
      if internalProtocol urlObj.protocol then true
      else suffixLoop (splitDots urlObj.hostname) disabledDomains

/-- Model of JS `array.indexOf(d)`: index of the first occurrence, `none`
when absent (JS `-1`). -/
def indexOfFirst (d : String) : List String → Option Nat
  | [] => none
  | x :: xs => if x = d then some 0 else (indexOfFirst d xs).map (· + 1)

/-- The search loop of `toggleSiteEnabled` over the given loop indices:
at each index `i` it computes `parts.slice(i).join('.')` and looks it up
with `indexOf`, stopping at the first index where the lookup succeeds and
returning the found position together with the matched domain string. -/
def findMatchGo (parts ds : List String) : List Nat → Option (Nat × String)
  | [] => none
  | i :: rest =>
    match indexOfFirst (domCheck parts i) ds with
    | some idx => some (idx, domCheck parts i)
    | none => findMatchGo parts ds rest

/-- The full search of `toggleSiteEnabled`: loop indices
`0, 1, ..., parts.length - 2` (most-specific suffix first). -/
def findMatch (parts ds : List String) : Option (Nat × String) :=
  findMatchGo parts ds (List.range (parts.length - 1))

/-- Outcome of `toggleSiteEnabled`: the stored `disabledDomains` after the
call, and the reported `newEnabledState` (`none` when the function
returned early without changing or reporting anything: empty `tab.url`
or `new URL` throwing into the surrounding `catch`). -/
structure ToggleResult where
  disabledDomains : List String
  newEnabledState : Option Bool
deriving DecidableEq

/-- Core of `toggleSiteEnabled(tabId)` from src/unnamed/part_001, with the
tab lookup, storage I/O and notifications abstracted away: the input is
the tab's URL and the stored `disabledDomains`, the output is the new
stored list and the reported state.  `disabledDomains.splice(index, 1)`
is `List.eraseIdx`, `disabledDomains.push(hostname)` appends. -/
def toggleSiteEnabled (parse : String → Option Url) (url : String)
    (disabledDomains : List String) : ToggleResult :=
  if url = "" then ⟨disabledDomains, none⟩
  else
    match parse url with
    | none => ⟨disabledDomains, none⟩
    | some urlObj =>
      match findMatch (splitDots urlObj.hostname) disabledDomains with
      | some (idx, _) => ⟨disabledDomains.eraseIdx idx, some true⟩
      | none => ⟨disabledDomains ++ [urlObj.hostname], some false⟩

/-! ## Image candidate scorer (src/src/content/content.ts
`findBestImage`, `isPlaceholderImage`) -/

/-- The attributes of an `HTMLImageElement` the scorer reads.  `alt` is the
DOM property (empty string when absent); `titleAttr` and `ariaHidden` model
`getAttribute(...)`, which returns `null` (here `none`) when absent. -/
structure ImgAttrs where
  src : String
  naturalWidth : Nat
  naturalHeight : Nat
  offsetWidth : Nat
  offsetHeight : Nat
  alt : String
  titleAttr : Option String
  ariaHidden : Option String
  complete : Bool
deriving DecidableEq

/-- A DOM element: identity (JS object identity, used by `new Set` for
de-duplication), tag name, image attributes (only read when the tag is
`IMG`), and child elements in document order. -/
inductive Elem where
  | mk (elemId : Nat) (tagName : String) (attrs : ImgAttrs) (children : List Elem)

def Elem.elemId : Elem → Nat
  | .mk i _ _ _ => i

def Elem.tagName : Elem → String
  | .mk _ t _ _ => t

def Elem.attrs : Elem → ImgAttrs
  | .mk _ _ a _ => a

def Elem.children : Elem → List Elem
  | .mk _ _ _ c => c

mutual
/-- Model of `element.querySelectorAll('img')`: all strict descendants with
tag `IMG`, in document (pre-)order. -/
def descImgs : Elem → List Elem
  | .mk _ _ _ cs => descImgsList cs

def descImgsList : List Elem → List Elem
  | [] => []
  | e :: es => (if e.tagName = "IMG" then [e] else []) ++ descImgs e ++ descImgsList es
end

/-- Truthiness of a JS `getAttribute` result: `null` and `''` are falsy. -/
def truthyAttr : Option String → Bool
  | none => false
  | some t => t ≠ ""

/-- `isPlaceholderImage(img)` from src/src/content/content.ts: aria-hidden,
or an inline SVG data-URL source, or loaded (`complete`) with zero natural
dimensions. -/
def isPlaceholderImage (img : ImgAttrs) : Bool :=
  if img.ariaHidden = some "true" then true
  else if strStartsWith img.src "data:image/svg+xml" then true
  else if img.complete ∧ img.naturalWidth = 0 ∧ img.naturalHeight = 0 then true
  else false

/-- `score += 100` when not a placeholder. -/
def placeholderPts (img : ImgAttrs) : Int :=
  if isPlaceholderImage img = false then 100 else 0

/-- `score += 50` when the source is not an inline SVG data URL. -/
def svgPts (img : ImgAttrs) : Int :=
  if strStartsWith img.src "data:image/svg+xml" = false then 50 else 0

/-- `score += 30` for non-zero natural dimensions, else `score += 20` for
non-zero offset dimensions (mutually exclusive branches). -/
def dimsPts (img : ImgAttrs) : Int :=
  if img.naturalWidth > 0 ∧ img.naturalHeight > 0 then 30
  else if img.offsetWidth > 0 ∧ img.offsetHeight > 0 then 20
  else 0

/-- `score += 10` when `img.alt || img.getAttribute('title')` is truthy. -/
def altPts (img : ImgAttrs) : Int :=
  if img.alt ≠ "" ∨ truthyAttr img.titleAttr then 10 else 0

/-- `score += 5` when `img.getAttribute('aria-hidden') !== 'true'`. -/
def hiddenPts (img : ImgAttrs) : Int :=
  if img.ariaHidden ≠ some "true" then 5 else 0

/-- The total additive score a candidate receives in `findBestImage`. -/
def scoreImage (img : ImgAttrs) : Int :=
  placeholderPts img + svgPts img + dimsPts img + altPts img + hiddenPts img

/-- The candidate-gathering phase of `findBestImage`: the start element
itself when it is an image, then all image descendants of its parent
(when it has one), then all image descendants of the start element.
The parent element is passed explicitly because the embedding's trees
carry no parent pointers. -/
def gatherCandidates (startElement : Elem) (parentElement : Option Elem) : List Elem :=
  (if startElement.tagName = "IMG" then [startElement] else [])
    ++ (match parentElement with
        | some p => descImgs p
        | none => [])
    ++ descImgs startElement

/-- Model of `Array.from(new Set(allCandidates))`: de-duplicate by object
identity, keeping the first occurrence, preserving order. -/
def dedupById : List Elem → List Nat → List Elem
  | [], _ => []
  | e :: es, seen =>
    if e.elemId ∈ seen then dedupById es seen
    else e :: dedupById es (e.elemId :: seen)

/-- The scoring loop of `findBestImage`: fold over the candidates carrying
the mutable `bestImage` and `bestScore` variables.  Candidates with an
empty `src` are skipped; a candidate replaces the best only when its score
is strictly greater, so ties keep the first-seen candidate. -/
def selectLoop : List Elem → Option Elem × Int → Option Elem × Int
  | [], acc => acc
  | img :: rest, (best, bestScore) =>
    if img.attrs.src = "" then selectLoop rest (best, bestScore)
    else if scoreImage img.attrs > bestScore then
      selectLoop rest (some img, scoreImage img.attrs)
    else selectLoop rest (best, bestScore)

/-- `findBestImage(startElement)` from src/src/content/content.ts.
`none` start element models a `null` argument; the start element's
`parentElement` is the second argument. -/
def findBestImage (startElement : Option Elem) (parentElement : Option Elem) :
    Option Elem :=
  match startElement with
  | none => none
  | some el =>
    (selectLoop (dedupById (gatherCandidates el parentElement) []) (none, -1)).1

/-! ## Capture item limit (src/unnamed/part_004 `checkStorageAvailable`,
src/unnamed/part_001 capture handlers) -/

/-- `MAX_ITEMS` from src/unnamed/part_004. -/
def MAX_ITEMS : Nat := 1000

/-- The `estimatedQuota` used by `getStorageInfo` (10 MB). -/
def estimatedQuota : Nat := 10 * 1024 * 1024

/-- The two errors `checkStorageAvailable` can throw. -/
inductive StorageCheckError where
  | itemLimit (limit : Nat)
  | storageQuota
deriving DecidableEq

/-- The `userMessage` of `ItemLimitError(limit)` (src/src/types/errors.ts). -/
def itemLimitUserMessage (limit : Nat) : String :=
  "You have reached the maximum of " ++ toString limit
    ++ " items. Please export to PDF and clear some items."

/-- The `userMessage` of `StorageQuotaError` (src/src/types/errors.ts). -/
def storageQuotaUserMessage : String :=
  "Storage limit reached. Please delete some items or export to PDF and clear all items."

/-- The user-facing message the capture handlers return for a thrown
`NotesCollectorError` (`error.userMessage || error.message`). -/
def errorUserMessage : StorageCheckError → String
  | .itemLimit l => itemLimitUserMessage l
  | .storageQuota => storageQuotaUserMessage

/-- `checkStorageAvailable(estimatedSize)` from src/unnamed/part_004.
`itemCount` and `bytesInUse` are the values `getStorageInfo` reads from
storage; the item-limit check runs first, then the quota projection
(`quotaBytes` is always the truthy `estimatedQuota`). -/
def checkStorageAvailable (itemCount bytesInUse estimatedSize : Nat) :
    Except StorageCheckError Unit :=
  if itemCount ≥ MAX_ITEMS then .error (.itemLimit MAX_ITEMS)
  else if bytesInUse + estimatedSize ≥ estimatedQuota then .error .storageQuota
  else .ok ()

/-- A stored `CapturedItem`.  `metadata` is modelled as a key/value list. -/
structure CapturedItem where
  itemId : String
  itemType : String
  order : Nat
  timestamp : Nat
  content : String
  metadata : List (String × String)
deriving DecidableEq

/-- The stored record the capture handlers read and write: the item list
and the `nextOrder` counter. -/
structure StorageData where
  items : List CapturedItem
  nextOrder : Nat
deriving DecidableEq

/-- What a capture handler returns and leaves in storage: the
`MessageResponse`'s `success` flag and `error` string, and the storage
state after the call. -/
structure CaptureOutcome where
  success : Bool
  errorMsg : Option String
  state : StorageData
deriving DecidableEq

/-- Shared success path of the four capture handlers: push the new item,
increment `nextOrder`, report success. -/
def appendItem (st : StorageData) (item : CapturedItem) : CaptureOutcome :=
  ⟨true, none, ⟨st.items ++ [item], st.nextOrder + 1⟩⟩

/-- `handleCaptureLink` from src/unnamed/part_001: checks storage with an
estimated size of 500 bytes, then appends a `'link'` item.  `newId` models
`crypto.randomUUID()` and `now` models `Date.now()`; `bytesInUse` is the
storage usage `getStorageInfo` reports.  A thrown `NotesCollectorError`
is caught and reported as `success:false` with the error's user message,
leaving storage untouched. -/
def handleCaptureLink (st : StorageData) (bytesInUse : Nat) (newId : String)
    (now : Nat) (href text : String) : CaptureOutcome :=
  match checkStorageAvailable st.items.length bytesInUse 500 with
  | .error e => ⟨false, some (errorUserMessage e), st⟩
  | .ok _ =>
    appendItem st ⟨newId, "link", st.nextOrder, now, href, [("text", text), ("href", href)]⟩

/-- `handleCaptureImage` from src/unnamed/part_001: content is
`data.dataUrl || data.src`; the estimated size is the content length for
data URLs, else 500. -/
def handleCaptureImage (st : StorageData) (bytesInUse : Nat) (newId : String)
    (now : Nat) (src alt dataUrl : String) : CaptureOutcome :=
  let content := if dataUrl ≠ "" then dataUrl else src
  let estimatedSize := if strStartsWith content "data:" then content.data.length else 500
  match checkStorageAvailable st.items.length bytesInUse estimatedSize with
  | .error e => ⟨false, some (errorUserMessage e), st⟩
  | .ok _ =>
    appendItem st ⟨newId, "image", st.nextOrder, now, content,
      [("alt", alt), ("originalSrc", src)]⟩

/-- `handleCaptureText` from src/unnamed/part_001: estimated size is
`text.length + 200`. -/
def handleCaptureText (st : StorageData) (bytesInUse : Nat) (newId : String)
    (now : Nat) (text sourceUrl : String) : CaptureOutcome :=
  match checkStorageAvailable st.items.length bytesInUse (text.data.length + 200) with
  | .error e => ⟨false, some (errorUserMessage e), st⟩
  | .ok _ =>
    appendItem st ⟨newId, "text", st.nextOrder, now, text,
      [("text", text), ("sourceUrl", sourceUrl)]⟩

/-- `handleCaptureScreenshot` from src/unnamed/part_001: estimated size is
the data URL's length. -/
def handleCaptureScreenshot (st : StorageData) (bytesInUse : Nat) (newId : String)
    (now : Nat) (dataUrl sourceUrl : String) : CaptureOutcome :=
  match checkStorageAvailable st.items.length bytesInUse dataUrl.data.length with
  | .error e => ⟨false, some (errorUserMessage e), st⟩
  | .ok _ =>
    appendItem st ⟨newId, "screenshot", st.nextOrder, now, dataUrl,
      [("sourceUrl", sourceUrl)]⟩

/-! ## Concrete inputs used to instantiate the theorems -/

/-- A concrete stand-in for the platform URL parser, mapping a handful of
URL strings to the protocol/hostname pairs `new URL` produces on them and
everything else to a parse failure. -/
def demoParse : String → Option Url := fun s =>
  if s = "https://gist.github.com/x" then some ⟨"https:", "gist.github.com"⟩
  else if s = "https://sub.a.com/" then some ⟨"https:", "sub.a.com"⟩
  else if s = "https://a.com/" then some ⟨"https:", "a.com"⟩
  else if s = "http://localhost/" then some ⟨"http:", "localhost"⟩
  else if s = "https://c.b.a.com/" then some ⟨"https:", "c.b.a.com"⟩
  else if s = "about:blank" then some ⟨"about:", "blank"⟩
  else none

/-- A fully defaulted image-attribute record for building concrete
candidates. -/
def blankAttrs : ImgAttrs :=
  ⟨"", 0, 0, 0, 0, "", none, none, false⟩

/-- A concrete aria-hidden placeholder image. -/
def placeholderImgAttrs : ImgAttrs :=
  ⟨"p.png", 0, 0, 10, 10, "", none, some "true", true⟩

/-- A concrete real content image. -/
def realImgAttrs : ImgAttrs :=
  ⟨"photo.jpg", 400, 300, 400, 300, "photo", none, none, true⟩

/-- A concrete subtree holding a placeholder and a real image. -/
def demoSubtree : Elem :=
  .mk 0 "DIV" blankAttrs
    [.mk 1 "IMG" placeholderImgAttrs [], .mk 2 "IMG" realImgAttrs []]

/-- A concrete image with non-zero natural dimensions (and nothing else
scored). -/
def intrinsicAttrs : ImgAttrs :=
  ⟨"x.jpg", 400, 300, 0, 0, "", none, none, false⟩

/-- A concrete image identical to `intrinsicAttrs` on all scored
attributes except dimensions: only non-zero offset dimensions. -/
def offsetAttrs : ImgAttrs :=
  ⟨"x.jpg", 0, 0, 200, 100, "", none, none, false⟩

/-- A concrete captured item for instantiating the storage theorems. -/
def demoItem : CapturedItem :=
  ⟨"id0", "link", 0, 0, "https://a.com/", []⟩

/-- A storage state already holding `MAX_ITEMS` items. -/
def fullStorage : StorageData :=
  ⟨List.replicate 1000 demoItem, 1000⟩

/-! ## Foundational lemmas about the string model -/

theorem splitDotsChars_ne_nil (cs : List Char) : splitDotsChars cs ≠ [] := by
  cases cs with
  | nil => simp [splitDotsChars]
  | cons c cs =>
    simp only [splitDotsChars]
    split
    · simp
    · split <;> simp

theorem joinDots_splitDotsChars (cs : List Char) :
    joinDots ((splitDotsChars cs).map (fun l => String.mk l)) = String.mk cs := by
  induction cs with
  | nil => rfl
  | cons c cs ih =>
    obtain ⟨l, ls, hls⟩ : ∃ l ls, splitDotsChars cs = l :: ls := by
      cases h : splitDotsChars cs with
      | nil => exact absurd h (splitDotsChars_ne_nil cs)
      | cons l ls => exact ⟨l, ls, rfl⟩
    rw [hls] at ih
    have ihd := congrArg String.data ih
    by_cases hc : c = '.'
    · subst hc
      have hsp : splitDotsChars ('.' :: cs) = [] :: l :: ls := by
        simp [splitDotsChars, hls]
      rw [hsp, List.map_cons, List.map_cons]
      rw [List.map_cons] at ih
      have hstep : joinDots (String.mk [] :: String.mk l :: ls.map (fun l => String.mk l))
          = String.mk [] ++ "." ++ joinDots (String.mk l :: ls.map (fun l => String.mk l)) := rfl
      rw [hstep, ih]
      apply String.ext
      simp
    · have hsp : splitDotsChars (c :: cs) = (c :: l) :: ls := by
        simp [splitDotsChars, hc, hls]
      rw [hsp, List.map_cons]
      cases ls with
      | nil =>
        simp only [List.map_nil, joinDots] at ihd ⊢
        apply String.ext
        simpa using congrArg (c :: ·) ihd
      | cons l' ls' =>
        simp only [List.map_cons, joinDots, String.data_append] at ihd ⊢
        apply String.ext
        simp only [String.data_append]
        simpa using congrArg (c :: ·) ihd

/-- Joining the labels of a hostname back with dots recovers the hostname:
`parts.slice(0).join('.') === hostname` for `parts = hostname.split('.')`. -/
theorem joinDots_splitDots (s : String) : joinDots (splitDots s) = s := by
  have h := joinDots_splitDotsChars s.data
  simpa [splitDots] using h

/-! ## Lemmas about the suffix loop and the toggle search -/

theorem suffixLoop_iff (parts ds : List String) :
    suffixLoop parts ds = true ↔ ∃ i, i + 2 ≤ parts.length ∧ domCheck parts i ∈ ds := by
  unfold suffixLoop
  simp only [List.any_eq_true, List.mem_range]
  constructor
  · rintro ⟨i, hi, hc⟩
    refine ⟨i, by omega, ?_⟩
    simpa using hc
  · rintro ⟨i, hi, hc⟩
    refine ⟨i, by omega, ?_⟩
    simpa using hc

theorem indexOfFirst_eq_none_iff (d : String) (l : List String) :
    indexOfFirst d l = none ↔ d ∉ l := by
  induction l with
  | nil => simp [indexOfFirst]
  | cons x xs ih =>
    simp only [indexOfFirst, List.mem_cons]
    by_cases hx : x = d
    · simp [hx]
    · simp only [if_neg hx, Option.map_eq_none', ih]
      constructor
      · intro h hm
        rcases hm with hm | hm
        · exact hx hm.symm
        · exact h hm
      · intro h hm
        exact h (Or.inr hm)

theorem indexOfFirst_getElem (d : String) (l : List String) (i : Nat)
    (h : indexOfFirst d l = some i) : l[i]? = some d := by
  induction l generalizing i with
  | nil => simp [indexOfFirst] at h
  | cons x xs ih =>
    rw [indexOfFirst] at h
    by_cases hx : x = d
    · rw [if_pos hx] at h
      have : i = 0 := by simpa using h.symm
      subst this
      simpa using hx
    · rw [if_neg hx] at h
      cases hi : indexOfFirst d xs with
      | none => rw [hi] at h; simp at h
      | some j =>
        rw [hi] at h
        have : j + 1 = i := by simpa using h
        subst this
        simpa using ih j hi

theorem indexOfFirst_mem (d : String) (l : List String) (i : Nat)
    (h : indexOfFirst d l = some i) : d ∈ l := by
  by_contra hnm
  rw [← indexOfFirst_eq_none_iff] at hnm
  rw [hnm] at h
  simp at h

theorem indexOfFirst_append_self (d : String) (l : List String) (h : d ∉ l) :
    indexOfFirst d (l ++ [d]) = some l.length := by
  induction l with
  | nil => simp [indexOfFirst]
  | cons x xs ih =>
    have hx : ¬(x = d) := by
      rintro rfl
      exact h (List.mem_cons_self x xs)
    rw [List.cons_append, indexOfFirst, if_neg hx,
      ih (fun hm => h (List.mem_cons_of_mem _ hm))]
    rfl

theorem eraseIdx_append_length (l : List String) (d : String) :
    (l ++ [d]).eraseIdx l.length = l := by
  induction l with
  | nil => rfl
  | cons x xs ih =>
    simp only [List.cons_append, List.length_cons, List.eraseIdx_cons_succ, ih]

theorem mem_eraseIdx_of_ne (a b : String) (l : List String) (i : Nat)
    (ha : a ∈ l) (hb : l[i]? = some b) (hne : a ≠ b) : a ∈ l.eraseIdx i := by
  induction l generalizing i with
  | nil => simp at ha
  | cons x xs ih =>
    cases i with
    | zero =>
      have hx : x = b := by simpa using hb
      subst hx
      rcases List.mem_cons.mp ha with rfl | hm
      · exact absurd rfl hne
      · simpa [List.eraseIdx] using hm
    | succ j =>
      have hb' : xs[j]? = some b := by simpa using hb
      rcases List.mem_cons.mp ha with rfl | hm
      · simp [List.eraseIdx]
      · simpa [List.eraseIdx] using Or.inr (ih j hm hb')

theorem findMatchGo_eq_none_iff (parts ds : List String) (is : List Nat) :
    findMatchGo parts ds is = none ↔ ∀ i ∈ is, domCheck parts i ∉ ds := by
  induction is with
  | nil => simp [findMatchGo]
  | cons i rest ih =>
    rw [findMatchGo]
    cases hio : indexOfFirst (domCheck parts i) ds with
    | some j =>
      have hmem : domCheck parts i ∈ ds := indexOfFirst_mem _ _ _ hio
      constructor
      · intro h
        simp at h
      · intro h
        exact absurd hmem (h i (List.mem_cons_self i rest))
    | none =>
      have hnm : domCheck parts i ∉ ds := (indexOfFirst_eq_none_iff _ _).mp hio
      rw [ih]
      constructor
      · intro h j hj
        rcases List.mem_cons.mp hj with rfl | hj'
        · exact hnm
        · exact h j hj'
      · intro h j hj
        exact h j (List.mem_cons_of_mem _ hj)

theorem findMatchGo_some (parts ds : List String) (is : List Nat) (idx : Nat) (d : String)
    (h : findMatchGo parts ds is = some (idx, d)) :
    indexOfFirst d ds = some idx ∧ ∃ i ∈ is, d = domCheck parts i := by
  induction is with
  | nil => simp [findMatchGo] at h
  | cons i rest ih =>
    rw [findMatchGo] at h
    cases hio : indexOfFirst (domCheck parts i) ds with
    | some j =>
      rw [hio] at h
      have hj : j = idx ∧ domCheck parts i = d := by simpa using h
      obtain ⟨rfl, rfl⟩ := hj
      exact ⟨hio, i, List.mem_cons_self i rest, rfl⟩
    | none =>
      rw [hio] at h
      obtain ⟨h1, i', hi', hd⟩ := ih h
      exact ⟨h1, i', List.mem_cons_of_mem _ hi', hd⟩

theorem findMatch_eq_none_iff (parts ds : List String) :
    findMatch parts ds = none ↔ ∀ i, i + 2 ≤ parts.length → domCheck parts i ∉ ds := by
  rw [findMatch, findMatchGo_eq_none_iff]
  constructor
  · intro h i hi
    exact h i (List.mem_range.mpr (by omega))
  · intro h i hi
    have := List.mem_range.mp hi
    exact h i (by omega)

theorem findMatch_some (parts ds : List String) (idx : Nat) (d : String)
    (h : findMatch parts ds = some (idx, d)) :
    indexOfFirst d ds = some idx ∧ ∃ i, i + 2 ≤ parts.length ∧ d = domCheck parts i := by
  obtain ⟨h1, i, hi, hd⟩ := findMatchGo_some parts ds _ idx d h
  exact ⟨h1, i, by have := List.mem_range.mp hi; omega, hd⟩

theorem findMatch_head (parts ds : List String) (idx : Nat)
    (hlen : 2 ≤ parts.length)
    (h0 : indexOfFirst (domCheck parts 0) ds = some idx) :
    findMatch parts ds = some (idx, domCheck parts 0) := by
  rw [findMatch]
  obtain ⟨k, hk⟩ : ∃ k, parts.length - 1 = k + 1 := ⟨parts.length - 2, by omega⟩
  rw [hk, List.range_succ_eq_map, findMatchGo, h0]

/-! ## Claims about the domain matcher -/

/-- C1: for a well-formed http(s) URL, `isUrlDisabled` is true iff some
contiguous suffix of the hostname's dot-separated labels with at least
two labels, joined with dots, is in the disabled set — so the bare
top-level label alone is never tested. -/
theorem isUrlDisabled_suffix_iff (parse : String → Option Url) (url : String)
    (D : List String) (u : Url) (hurl : url ≠ "") (hparse : parse url = some u)
    (hproto : u.protocol = "http:" ∨ u.protocol = "https:") :
    isUrlDisabled parse url D = true ↔
      ∃ pre suf, splitDots u.hostname = pre ++ suf ∧ 2 ≤ suf.length ∧
        joinDots suf ∈ D := by
  have hip : internalProtocol u.protocol = false := by
    rcases hproto with h | h <;> simp [internalProtocol, h]
  by_cases hD : D = []
  · subst hD
    simp [isUrlDisabled, hurl, hparse]
  · rw [isUrlDisabled, if_neg hurl, if_neg hD, hparse]
    simp only [hip, Bool.false_eq_true, if_false]
    rw [suffixLoop_iff]
    constructor
    · rintro ⟨i, hi, hmem⟩
      refine ⟨(splitDots u.hostname).take i, (splitDots u.hostname).drop i,
        (List.take_append_drop i _).symm, ?_, hmem⟩
      have := List.length_drop i (splitDots u.hostname)
      omega
    · rintro ⟨pre, suf, hsplit, hlen, hmem⟩
      refine ⟨pre.length, ?_, ?_⟩
      · have : (splitDots u.hostname).length = pre.length + suf.length := by
          rw [hsplit, List.length_append]
        omega
      · rw [domCheck, hsplit, List.drop_left]
        exact hmem

/-- C1 witness: with `{"github.com"}` disabled, `https://gist.github.com/x`
is disabled via the two-label suffix `github.com`. -/
theorem isUrlDisabled_suffix_iff_witness :
    isUrlDisabled demoParse "https://gist.github.com/x" ["github.com"] = true := by
  have h := isUrlDisabled_suffix_iff demoParse "https://gist.github.com/x" ["github.com"]
    ⟨"https:", "gist.github.com"⟩ (by decide) (by decide) (Or.inr rfl)
  exact h.mpr ⟨["gist"], ["github", "com"], by decide, by decide, by decide⟩

/-- C2 counterexample: with an empty disabled set, the guard
`disabledDomains.length === 0` returns `false` before the internal-scheme
check ever runs, so an `about:` URL is reported enabled — refuting the
claim that internal-scheme URLs yield `true` for every disabled set
including the empty one. -/
theorem internal_scheme_empty_set_cex :
    isUrlDisabled demoParse "about:blank" [] = false := by decide

/-- C2 (amended): for every nonempty URL string parsing to an
internal-scheme URL (`about:`, `chrome:`, `moz-extension:`) and every
NONEMPTY disabled set, `isUrlDisabled` returns true; the empty disabled
set (like the empty URL string) is caught by the initial guard and yields
false. -/
theorem isUrlDisabled_internal_true (parse : String → Option Url) (url : String)
    (D : List String) (u : Url) (hurl : url ≠ "") (hD : D ≠ [])
    (hparse : parse url = some u) (hip : internalProtocol u.protocol = true) :
    isUrlDisabled parse url D = true := by
  rw [isUrlDisabled, if_neg hurl, if_neg hD, hparse]
  simp [hip]

/-- C2 (amended) witness: `about:blank` with a one-element disabled set. -/
theorem isUrlDisabled_internal_true_witness :
    isUrlDisabled demoParse "about:blank" ["example.com"] = true :=
  isUrlDisabled_internal_true demoParse "about:blank" ["example.com"]
    ⟨"about:", "blank"⟩ (by decide) (by decide) (by decide) (by decide)

/-- C5: on a string the URL parser rejects, `isUrlDisabled` returns false
and `toggleSiteEnabled` is a no-op: the disabled set is unchanged and no
state change is reported. -/
theorem malformed_url_noop (parse : String → Option Url) (url : String)
    (D : List String) (hparse : parse url = none) :
    isUrlDisabled parse url D = false ∧
      toggleSiteEnabled parse url D = ⟨D, none⟩ := by
  constructor
  · by_cases hu : url = ""
    · simp [isUrlDisabled, hu]
    · by_cases hD : D = [] <;> simp [isUrlDisabled, hu, hD, hparse]
  · by_cases hu : url = ""
    · simp [toggleSiteEnabled, hu]
    · simp [toggleSiteEnabled, hu, hparse]

/-- C5 witness: a non-URL string with a nonempty disabled set. -/
theorem malformed_url_noop_witness :
    isUrlDisabled demoParse "not a url" ["github.com"] = false ∧
      toggleSiteEnabled demoParse "not a url" ["github.com"] = ⟨["github.com"], none⟩ :=
  malformed_url_noop demoParse "not a url" ["github.com"] (by decide)

/-- C3: when some label-suffix of the hostname with at least two labels is
in the disabled set, a single toggle reports newly enabled and removes
exactly the entry the suffix search matched (possibly a proper ancestor
domain of the hostname, at its first occurrence in the list); every other
entry, before and after the removed position, is kept. -/
theorem toggle_removes_matched_entry (parse : String → Option Url) (url : String)
    (D : List String) (u : Url) (hurl : url ≠ "") (hparse : parse url = some u)
    (hmatch : ∃ i, i + 2 ≤ (splitDots u.hostname).length ∧
      domCheck (splitDots u.hostname) i ∈ D) :
    ∃ idx d,
      D[idx]? = some d ∧
      (∃ i, i + 2 ≤ (splitDots u.hostname).length ∧
        d = domCheck (splitDots u.hostname) i) ∧
      toggleSiteEnabled parse url D = ⟨D.eraseIdx idx, some true⟩ ∧
      D.eraseIdx idx = D.take idx ++ D.drop (idx + 1) := by
  cases hfm : findMatch (splitDots u.hostname) D with
  | none =>
    rw [findMatch_eq_none_iff] at hfm
    obtain ⟨i, hi, hmem⟩ := hmatch
    exact absurd hmem (hfm i hi)
  | some p =>
    obtain ⟨idx, d⟩ := p
    obtain ⟨hio, i, hi, hd⟩ := findMatch_some _ _ _ _ hfm
    refine ⟨idx, d, indexOfFirst_getElem _ _ _ hio, ⟨i, hi, hd⟩, ?_, ?_⟩
    · rw [toggleSiteEnabled, if_neg hurl, hparse]
      simp [hfm]
    · exact List.eraseIdx_eq_take_drop_succ D idx

/-- C3 witness: with only the parent `a.com` disabled, toggling
`https://sub.a.com/` removes the parent entry and reports newly
enabled. -/
theorem toggle_removes_matched_entry_witness :
    toggleSiteEnabled demoParse "https://sub.a.com/" ["a.com"] = ⟨[], some true⟩ := by
  obtain ⟨idx, d, hget, _, hres, _⟩ := toggle_removes_matched_entry demoParse
    "https://sub.a.com/" ["a.com"] ⟨"https:", "sub.a.com"⟩ (by decide) (by decide)
    ⟨1, by decide, by decide⟩
  have hidx : idx = 0 := by
    cases idx with
    | zero => rfl
    | succ n => simp at hget
  subst hidx
  simpa using hres

/-- C4 counterexample: for the single-label hostname `localhost`
(`http://localhost/`) the suffix loop has no indices to check, so
toggling twice starting from the empty set appends `localhost` twice
instead of returning to the empty set — refuting the claimed involution. -/
theorem toggle_involution_cex :
    (toggleSiteEnabled demoParse "http://localhost/"
        (toggleSiteEnabled demoParse "http://localhost/" []).disabledDomains).disabledDomains
        = ["localhost", "localhost"] ∧
      (toggleSiteEnabled demoParse "http://localhost/"
          (toggleSiteEnabled demoParse "http://localhost/" []).disabledDomains).disabledDomains
        ≠ [] := by decide

/-- C4 (amended): when no label-suffix of the hostname (with at least two
labels) is in the disabled set, toggle appends exactly the hostname —
never an ancestor — and reports newly disabled; and provided the hostname
has at least two labels, a second toggle on the same hostname removes it
again, returning the set to its original value.  (For a single-label
hostname such as `localhost` the suffix search never runs, so the second
toggle appends a duplicate instead of removing the first entry.) -/
theorem toggle_adds_exact_and_involution (parse : String → Option Url) (url : String)
    (D : List String) (u : Url) (hurl : url ≠ "") (hparse : parse url = some u)
    (hnone : ∀ i, i + 2 ≤ (splitDots u.hostname).length →
      domCheck (splitDots u.hostname) i ∉ D) :
    toggleSiteEnabled parse url D = ⟨D ++ [u.hostname], some false⟩ ∧
      (2 ≤ (splitDots u.hostname).length →
        toggleSiteEnabled parse url (D ++ [u.hostname]) = ⟨D, some true⟩) := by
  have hfm : findMatch (splitDots u.hostname) D = none :=
    (findMatch_eq_none_iff _ _).mpr hnone
  have hd0 : domCheck (splitDots u.hostname) 0 = u.hostname := by
    rw [domCheck, List.drop_zero, joinDots_splitDots]
  constructor
  · rw [toggleSiteEnabled, if_neg hurl, hparse]
    simp [hfm]
  · intro hlen
    have hH : u.hostname ∉ D := by
      have := hnone 0 (by omega)
      rwa [hd0] at this
    have hio : indexOfFirst (domCheck (splitDots u.hostname) 0) (D ++ [u.hostname])
        = some D.length := by
      rw [hd0]
      exact indexOfFirst_append_self _ _ hH
    have hfm2 : findMatch (splitDots u.hostname) (D ++ [u.hostname])
        = some (D.length, domCheck (splitDots u.hostname) 0) :=
      findMatch_head _ _ _ hlen hio
    rw [toggleSiteEnabled, if_neg hurl, hparse]
    simp [hfm2, eraseIdx_append_length]

/-- C4 (amended) witness: toggling `https://a.com/` on the empty set adds
`a.com`; toggling again removes it. -/
theorem toggle_adds_exact_and_involution_witness :
    toggleSiteEnabled demoParse "https://a.com/" [] = ⟨["a.com"], some false⟩ ∧
      toggleSiteEnabled demoParse "https://a.com/" ["a.com"] = ⟨[], some true⟩ := by
  obtain ⟨h1, h2⟩ := toggle_adds_exact_and_involution demoParse "https://a.com/" []
    ⟨"https:", "a.com"⟩ (by decide) (by decide) (by intro i hi; simp)
  refine ⟨h1, ?_⟩
  have := h2 (by decide)
  simpa using this

/-- C9: if the disabled set contains both the hostname and a proper
ancestor domain of it (a shorter label-suffix with at least two labels),
a single toggle removes only the most-specific matching entry — the
hostname itself, at its first occurrence — and reports newly enabled,
yet `isUrlDisabled` still returns true afterwards because the ancestor
entry remains. -/
theorem toggle_most_specific_ancestor_remains (parse : String → Option Url)
    (url : String) (D : List String) (u : Url) (j : Nat) (hurl : url ≠ "")
    (hparse : parse url = some u)
    (hproto : u.protocol = "http:" ∨ u.protocol = "https:")
    (hH : u.hostname ∈ D)
    (hj1 : 1 ≤ j) (hj2 : j + 2 ≤ (splitDots u.hostname).length)
    (hanc : domCheck (splitDots u.hostname) j ∈ D)
    (hne : domCheck (splitDots u.hostname) j ≠ u.hostname) :
    ∃ idx,
      indexOfFirst u.hostname D = some idx ∧
      toggleSiteEnabled parse url D = ⟨D.eraseIdx idx, some true⟩ ∧
      isUrlDisabled parse url (D.eraseIdx idx) = true := by
  have hd0 : domCheck (splitDots u.hostname) 0 = u.hostname := by
    rw [domCheck, List.drop_zero, joinDots_splitDots]
  obtain ⟨idx, hio⟩ : ∃ idx, indexOfFirst u.hostname D = some idx := by
    cases h : indexOfFirst u.hostname D with
    | none => exact absurd ((indexOfFirst_eq_none_iff _ _).mp h) (by simpa using hH)
    | some i => exact ⟨i, rfl⟩
  have hfm : findMatch (splitDots u.hostname) D
      = some (idx, domCheck (splitDots u.hostname) 0) :=
    findMatch_head _ _ _ (by omega) (by rwa [hd0])
  have hgetH : D[idx]? = some u.hostname := indexOfFirst_getElem _ _ _ hio
  have hancIn : domCheck (splitDots u.hostname) j ∈ D.eraseIdx idx :=
    mem_eraseIdx_of_ne _ _ _ _ hanc hgetH hne
  refine ⟨idx, hio, ?_, ?_⟩
  · rw [toggleSiteEnabled, if_neg hurl, hparse]
    simp [hfm]
  · have hip : internalProtocol u.protocol = false := by
      rcases hproto with h | h <;> simp [internalProtocol, h]
    have hD' : D.eraseIdx idx ≠ [] := by
      intro h
      rw [h] at hancIn
      simp at hancIn
    rw [isUrlDisabled, if_neg hurl, if_neg hD', hparse]
    simp only [hip, Bool.false_eq_true, if_false]
    exact (suffixLoop_iff _ _).mpr ⟨j, hj2, hancIn⟩

/-- C9 witness: with both `c.b.a.com` and its ancestor `a.com` disabled,
toggling `https://c.b.a.com/` removes only `c.b.a.com`, and the URL is
still disabled through `a.com`. -/
theorem toggle_most_specific_ancestor_remains_witness :
    toggleSiteEnabled demoParse "https://c.b.a.com/" ["c.b.a.com", "a.com"]
        = ⟨["a.com"], some true⟩ ∧
      isUrlDisabled demoParse "https://c.b.a.com/" ["a.com"] = true := by
  obtain ⟨idx, hio, hres, hdis⟩ := toggle_most_specific_ancestor_remains demoParse
    "https://c.b.a.com/" ["c.b.a.com", "a.com"] ⟨"https:", "c.b.a.com"⟩ 2
    (by decide) (by decide) (Or.inr rfl) (by decide) (by decide) (by decide)
    (by decide) (by decide)
  have hio' : indexOfFirst "c.b.a.com" ["c.b.a.com", "a.com"] = some idx := hio
  have h0 : indexOfFirst "c.b.a.com" ["c.b.a.com", "a.com"] = some 0 := by decide
  have hidx : idx = 0 := by
    have h01 := h0.symm.trans hio'
    simpa using h01.symm
  subst hidx
  exact ⟨by simpa using hres, by simpa using hdis⟩

/-! ## Lemmas about the image scorer -/

theorem placeholderPts_bounds (img : ImgAttrs) :
    0 ≤ placeholderPts img ∧ placeholderPts img ≤ 100 := by
  unfold placeholderPts
  split_ifs <;> omega

theorem svgPts_bounds (img : ImgAttrs) : 0 ≤ svgPts img ∧ svgPts img ≤ 50 := by
  unfold svgPts
  split_ifs <;> omega

theorem dimsPts_bounds (img : ImgAttrs) : 0 ≤ dimsPts img ∧ dimsPts img ≤ 30 := by
  unfold dimsPts
  split_ifs <;> omega

theorem altPts_bounds (img : ImgAttrs) : 0 ≤ altPts img ∧ altPts img ≤ 10 := by
  unfold altPts
  split_ifs <;> omega

theorem hiddenPts_bounds (img : ImgAttrs) : 0 ≤ hiddenPts img ∧ hiddenPts img ≤ 5 := by
  unfold hiddenPts
  split_ifs <;> omega

theorem scoreImage_nonneg (img : ImgAttrs) : 0 ≤ scoreImage img := by
  have h1 := placeholderPts_bounds img
  have h2 := svgPts_bounds img
  have h3 := dimsPts_bounds img
  have h4 := altPts_bounds img
  have h5 := hiddenPts_bounds img
  unfold scoreImage
  omega

/-- A non-placeholder image is in particular neither aria-hidden nor an
inline SVG (those conditions would have made it a placeholder). -/
theorem not_placeholder_facts (img : ImgAttrs) (h : isPlaceholderImage img = false) :
    img.ariaHidden ≠ some "true" ∧
      strStartsWith img.src "data:image/svg+xml" = false := by
  revert h
  unfold isPlaceholderImage
  split_ifs with h1 h2 h3 <;> intro h <;> simp_all

/-- Every non-placeholder candidate scores at least 100 + 50 + 5 = 155. -/
theorem nonplaceholder_score_ge (img : ImgAttrs)
    (h : isPlaceholderImage img = false) : 155 ≤ scoreImage img := by
  obtain ⟨ha, hsvg⟩ := not_placeholder_facts img h
  have h1 : placeholderPts img = 100 := by
    unfold placeholderPts
    rw [if_pos h]
  have h2 : svgPts img = 50 := by
    unfold svgPts
    rw [if_pos hsvg]
  have h5 : hiddenPts img = 5 := by
    unfold hiddenPts
    rw [if_pos ha]
  have h3 := dimsPts_bounds img
  have h4 := altPts_bounds img
  unfold scoreImage
  omega

/-- Every placeholder candidate scores at most 50 + 30 + 10 = 90. -/
theorem placeholder_score_le (img : ImgAttrs)
    (h : isPlaceholderImage img = true) : scoreImage img ≤ 90 := by
  have h1 : placeholderPts img = 0 := by
    unfold placeholderPts
    rw [h]
    simp
  have h2 := svgPts_bounds img
  have h3 := dimsPts_bounds img
  have h4 := altPts_bounds img
  have h5 := hiddenPts_bounds img
  unfold isPlaceholderImage at h
  split_ifs at h with ha hsvg hdim
  · have h5' : hiddenPts img = 0 := by
      unfold hiddenPts
      rw [if_neg (by simpa using ha)]
    unfold scoreImage
    omega
  · have h2' : svgPts img = 0 := by
      unfold svgPts
      rw [if_neg (by simpa using hsvg)]
    unfold scoreImage
    omega
  · have h3' : dimsPts img ≤ 20 := by
      unfold dimsPts
      rw [if_neg (by omega)]
      split_ifs <;> omega
    unfold scoreImage
    omega

theorem selectLoop_cons_skip (x : Elem) (rest : List Elem) (best : Option Elem)
    (bs : Int) (h : x.attrs.src = "") :
    selectLoop (x :: rest) (best, bs) = selectLoop rest (best, bs) := by
  simp [selectLoop, h]

theorem selectLoop_cons_take (x : Elem) (rest : List Elem) (best : Option Elem)
    (bs : Int) (h1 : ¬x.attrs.src = "") (h2 : scoreImage x.attrs > bs) :
    selectLoop (x :: rest) (best, bs)
      = selectLoop rest (some x, scoreImage x.attrs) := by
  simp [selectLoop, h1, h2]

theorem selectLoop_cons_keep (x : Elem) (rest : List Elem) (best : Option Elem)
    (bs : Int) (h1 : ¬x.attrs.src = "") (h2 : ¬scoreImage x.attrs > bs) :
    selectLoop (x :: rest) (best, bs) = selectLoop rest (best, bs) := by
  simp [selectLoop, h1, h2]

/-- The invariant of the scoring loop: the best score never decreases, it
dominates the score of every sourced candidate seen, and the final best is
either the initial one (with its initial score) or some sourced candidate
from the list together with that candidate's score. -/
theorem selectLoop_spec (l : List Elem) (best : Option Elem) (bs : Int) :
    bs ≤ (selectLoop l (best, bs)).2 ∧
    (∀ c ∈ l, c.attrs.src ≠ "" → scoreImage c.attrs ≤ (selectLoop l (best, bs)).2) ∧
    (selectLoop l (best, bs) = (best, bs) ∨
      ∃ b ∈ l, (selectLoop l (best, bs)).1 = some b ∧ b.attrs.src ≠ "" ∧
        (selectLoop l (best, bs)).2 = scoreImage b.attrs) := by
  induction l generalizing best bs with
  | nil => simp [selectLoop]
  | cons x rest ih =>
    by_cases hsrc : x.attrs.src = ""
    · rw [selectLoop_cons_skip x rest best bs hsrc]
      obtain ⟨ih1, ih2, ih3⟩ := ih best bs
      refine ⟨ih1, ?_, ?_⟩
      · intro c hc hcs
        rcases List.mem_cons.mp hc with rfl | hm
        · exact absurd hsrc hcs
        · exact ih2 c hm hcs
      · rcases ih3 with h | ⟨b, hb, h1, h2, h3⟩
        · exact Or.inl h
        · exact Or.inr ⟨b, List.mem_cons_of_mem _ hb, h1, h2, h3⟩
    · by_cases hgt : scoreImage x.attrs > bs
      · rw [selectLoop_cons_take x rest best bs hsrc hgt]
        obtain ⟨ih1, ih2, ih3⟩ := ih (some x) (scoreImage x.attrs)
        refine ⟨by omega, ?_, ?_⟩
        · intro c hc hcs
          rcases List.mem_cons.mp hc with rfl | hm
          · exact ih1
          · exact ih2 c hm hcs
        · rcases ih3 with h | ⟨b, hb, h1, h2, h3⟩
          · exact Or.inr ⟨x, List.mem_cons_self x rest, by rw [h], hsrc, by rw [h]⟩
          · exact Or.inr ⟨b, List.mem_cons_of_mem _ hb, h1, h2, h3⟩
      · rw [selectLoop_cons_keep x rest best bs hsrc hgt]
        obtain ⟨ih1, ih2, ih3⟩ := ih best bs
        refine ⟨ih1, ?_, ?_⟩
        · intro c hc hcs
          rcases List.mem_cons.mp hc with rfl | hm
          · omega
          · exact ih2 c hm hcs
        · rcases ih3 with h | ⟨b, hb, h1, h2, h3⟩
          · exact Or.inl h
          · exact Or.inr ⟨b, List.mem_cons_of_mem _ hb, h1, h2, h3⟩

/-! ## Claims about the image scorer -/

/-- C8: `findBestImage` returns `none` exactly when the start element is
null or no gathered candidate has a non-empty source; every candidate
scores at least 0, which beats the initial best score of `-1`, so whenever
some candidate has a non-empty source a candidate is returned. -/
theorem findBestImage_none_iff (startElement parentElement : Option Elem) :
    (∀ img : ImgAttrs, 0 ≤ scoreImage img) ∧
    (findBestImage startElement parentElement = none ↔
      (startElement = none ∨ ∃ s, startElement = some s ∧
        ∀ c ∈ dedupById (gatherCandidates s parentElement) [], c.attrs.src = "")) := by
  refine ⟨scoreImage_nonneg, ?_⟩
  cases startElement with
  | none => simp [findBestImage]
  | some s =>
    rw [findBestImage]
    obtain ⟨h1, h2, h3⟩ :=
      selectLoop_spec (dedupById (gatherCandidates s parentElement) []) none (-1)
    constructor
    · intro hnone
      refine Or.inr ⟨s, rfl, ?_⟩
      intro c hc
      by_contra hcs
      rcases h3 with h | ⟨b, _, hb1, _, _⟩
      · have hle := h2 c hc hcs
        rw [h] at hle
        simp at hle
        have := scoreImage_nonneg c.attrs
        omega
      · rw [hnone] at hb1
        simp at hb1
    · rintro (h | ⟨s', hs', hall⟩)
      · simp at h
      · have hs : s' = s := by
          have := hs'.symm
          simpa using this
        subst hs
        rcases h3 with h | ⟨b, hb, _, hbs, _⟩
        · rw [h]
        · exact absurd (hall b hb) hbs

/-- C6: when the gathered candidates include a non-placeholder image with
a non-empty source, `findBestImage` never returns a placeholder: every
non-placeholder candidate scores at least 155 while any placeholder
scores at most 90. -/
theorem findBestImage_not_placeholder (s : Elem) (parentElement : Option Elem)
    (hnp : ∃ c ∈ dedupById (gatherCandidates s parentElement) [],
      c.attrs.src ≠ "" ∧ isPlaceholderImage c.attrs = false)
    (hpl : ∃ c ∈ dedupById (gatherCandidates s parentElement) [],
      isPlaceholderImage c.attrs = true) :
    (∀ img : ImgAttrs, isPlaceholderImage img = false → 155 ≤ scoreImage img) ∧
    (∀ img : ImgAttrs, isPlaceholderImage img = true → scoreImage img ≤ 90) ∧
    ∃ b, findBestImage (some s) parentElement = some b ∧
      isPlaceholderImage b.attrs = false := by
  refine ⟨fun img h => nonplaceholder_score_ge img h,
    fun img h => placeholder_score_le img h, ?_⟩
  obtain ⟨c, hc, hcs, hcnp⟩ := hnp
  obtain ⟨h1, h2, h3⟩ :=
    selectLoop_spec (dedupById (gatherCandidates s parentElement) []) none (-1)
  have hcscore : 155 ≤ scoreImage c.attrs := nonplaceholder_score_ge c.attrs hcnp
  have hge := h2 c hc hcs
  rcases h3 with h | ⟨b, hb, hb1, hb2, hb3⟩
  · rw [h] at hge
    omega
  · refine ⟨b, ?_, ?_⟩
    · rw [findBestImage]
      exact hb1
    · by_contra hbp
      have hbp' : isPlaceholderImage b.attrs = true := by
        cases hx : isPlaceholderImage b.attrs with
        | true => rfl
        | false => exact absurd hx hbp
      have := placeholder_score_le b.attrs hbp'
      omega

/-- C6 witness: a subtree with one aria-hidden placeholder and one real
image — the selected candidate is not a placeholder. -/
theorem findBestImage_not_placeholder_witness :
    ∃ b, findBestImage (some demoSubtree) none = some b ∧
      isPlaceholderImage b.attrs = false := by
  have hlist : dedupById (gatherCandidates demoSubtree none) []
      = [Elem.mk 1 "IMG" placeholderImgAttrs [], Elem.mk 2 "IMG" realImgAttrs []] := rfl
  have h := findBestImage_not_placeholder demoSubtree none
    ⟨Elem.mk 2 "IMG" realImgAttrs [],
      by rw [hlist]; exact List.mem_cons_of_mem _ (List.mem_cons_self _ _),
      by decide, by decide⟩
    ⟨Elem.mk 1 "IMG" placeholderImgAttrs [],
      by rw [hlist]; exact List.mem_cons_self _ _,
      by decide⟩
  exact h.2.2

/-- C7: between two candidate images equal on every scored attribute
except dimensions, the one with non-zero natural dimensions scores
exactly 10 points more (+30 versus +20, mutually exclusive branches) than
the one with only non-zero offset dimensions, and `findBestImage` selects
it regardless of candidate order. -/
theorem findBestImage_prefers_intrinsic (a b : ImgAttrs) (ia ib : Nat)
    (hid : ia ≠ ib) (hsa : a.src ≠ "") (hsb : b.src ≠ "")
    (hpl : isPlaceholderImage a = isPlaceholderImage b)
    (hsvg : strStartsWith a.src "data:image/svg+xml"
      = strStartsWith b.src "data:image/svg+xml")
    (halt : (a.alt ≠ "" ∨ truthyAttr a.titleAttr = true)
      ↔ (b.alt ≠ "" ∨ truthyAttr b.titleAttr = true))
    (hhid : a.ariaHidden = some "true" ↔ b.ariaHidden = some "true")
    (hadim : a.naturalWidth > 0 ∧ a.naturalHeight > 0)
    (hbdim : ¬(b.naturalWidth > 0 ∧ b.naturalHeight > 0))
    (hboff : b.offsetWidth > 0 ∧ b.offsetHeight > 0) :
    scoreImage a = scoreImage b + 10 ∧
    findBestImage (some (Elem.mk 0 "DIV" blankAttrs
        [Elem.mk ia "IMG" a [], Elem.mk ib "IMG" b []])) none
      = some (Elem.mk ia "IMG" a []) ∧
    findBestImage (some (Elem.mk 0 "DIV" blankAttrs
        [Elem.mk ib "IMG" b [], Elem.mk ia "IMG" a []])) none
      = some (Elem.mk ia "IMG" a []) := by
  have hP : placeholderPts a = placeholderPts b := by
    unfold placeholderPts
    rw [hpl]
  have hS : svgPts a = svgPts b := by
    unfold svgPts
    rw [hsvg]
  have hA : altPts a = altPts b := by
    unfold altPts
    exact if_congr halt rfl rfl
  have hH : hiddenPts a = hiddenPts b := by
    unfold hiddenPts
    exact if_congr (not_congr hhid) rfl rfl
  have hda : dimsPts a = 30 := by
    unfold dimsPts
    rw [if_pos hadim]
  have hdb : dimsPts b = 20 := by
    unfold dimsPts
    rw [if_neg hbdim, if_pos hboff]
  have hscore : scoreImage a = scoreImage b + 10 := by
    unfold scoreImage
    rw [hP, hS, hA, hH, hda, hdb]
    ring
  have hnn : 0 ≤ scoreImage b := scoreImage_nonneg b
  refine ⟨hscore, ?_, ?_⟩
  · have hcand : dedupById (gatherCandidates (Elem.mk 0 "DIV" blankAttrs
        [Elem.mk ia "IMG" a [], Elem.mk ib "IMG" b []]) none) []
        = [Elem.mk ia "IMG" a [], Elem.mk ib "IMG" b []] := by
      simp [gatherCandidates, descImgs, descImgsList, dedupById,
        Elem.tagName, Elem.elemId, Ne.symm hid]
    rw [findBestImage, hcand]
    rw [selectLoop_cons_take _ _ _ _ (by simpa [Elem.attrs] using hsa)
      (by simp only [Elem.attrs]; omega)]
    rw [selectLoop_cons_keep _ _ _ _ (by simpa [Elem.attrs] using hsb)
      (by simp only [Elem.attrs]; omega)]
    rfl
  · have hcand : dedupById (gatherCandidates (Elem.mk 0 "DIV" blankAttrs
        [Elem.mk ib "IMG" b [], Elem.mk ia "IMG" a []]) none) []
        = [Elem.mk ib "IMG" b [], Elem.mk ia "IMG" a []] := by
      simp [gatherCandidates, descImgs, descImgsList, dedupById,
        Elem.tagName, Elem.elemId, hid]
    rw [findBestImage, hcand]
    rw [selectLoop_cons_take _ _ _ _ (by simpa [Elem.attrs] using hsb)
      (by simp only [Elem.attrs]; omega)]
    rw [selectLoop_cons_take _ _ _ _ (by simpa [Elem.attrs] using hsa)
      (by simp only [Elem.attrs]; omega)]
    rfl

/-- C7 witness: concrete intrinsic-dimension and offset-only images, in
both candidate orders. -/
theorem findBestImage_prefers_intrinsic_witness :
    scoreImage intrinsicAttrs = scoreImage offsetAttrs + 10 ∧
    findBestImage (some (Elem.mk 0 "DIV" blankAttrs
        [Elem.mk 1 "IMG" intrinsicAttrs [], Elem.mk 2 "IMG" offsetAttrs []])) none
      = some (Elem.mk 1 "IMG" intrinsicAttrs []) ∧
    findBestImage (some (Elem.mk 0 "DIV" blankAttrs
        [Elem.mk 2 "IMG" offsetAttrs [], Elem.mk 1 "IMG" intrinsicAttrs []])) none
      = some (Elem.mk 1 "IMG" intrinsicAttrs []) :=
  findBestImage_prefers_intrinsic intrinsicAttrs offsetAttrs 1 2
    (by decide) (by decide) (by decide) (by decide) (by decide) (by decide)
    (by decide) (by decide) (by decide) (by decide)

/-! ## Claim about the capture item limit -/

/-- C10: when at least `MAX_ITEMS` (1000) items are stored, each of the
four capture handlers returns `success = false` with the item-limit user
message and leaves the stored item list and `nextOrder` counter unchanged:
the limit check throws before any item is appended. -/
theorem capture_rejects_at_item_limit (st : StorageData) (bytesInUse : Nat)
    (newId : String) (now : Nat) (href text src alt dataUrl sourceUrl : String)
    (h : 1000 ≤ st.items.length) :
    handleCaptureLink st bytesInUse newId now href text
        = ⟨false, some (itemLimitUserMessage 1000), st⟩ ∧
      handleCaptureImage st bytesInUse newId now src alt dataUrl
        = ⟨false, some (itemLimitUserMessage 1000), st⟩ ∧
      handleCaptureText st bytesInUse newId now text sourceUrl
        = ⟨false, some (itemLimitUserMessage 1000), st⟩ ∧
      handleCaptureScreenshot st bytesInUse newId now dataUrl sourceUrl
        = ⟨false, some (itemLimitUserMessage 1000), st⟩ := by
  have hc : ∀ es : Nat, checkStorageAvailable st.items.length bytesInUse es
      = .error (.itemLimit 1000) := by
    intro es
    rw [checkStorageAvailable, if_pos (by simpa [MAX_ITEMS] using h)]
    rfl
  refine ⟨?_, ?_, ?_, ?_⟩
  · unfold handleCaptureLink
    rw [hc]
    rfl
  · unfold handleCaptureImage
    simp only [hc]
    rfl
  · unfold handleCaptureText
    rw [hc]
    rfl
  · unfold handleCaptureScreenshot
    rw [hc]
    rfl

/-- C10 witness: a storage state holding exactly 1000 items rejects all
four capture kinds unchanged. -/
theorem capture_rejects_at_item_limit_witness :
    handleCaptureLink fullStorage 0 "id1" 5 "https://x/" "x"
        = ⟨false, some (itemLimitUserMessage 1000), fullStorage⟩ ∧
      handleCaptureImage fullStorage 0 "id1" 5 "s" "a" "d"
        = ⟨false, some (itemLimitUserMessage 1000), fullStorage⟩ ∧
      handleCaptureText fullStorage 0 "id1" 5 "x" "u"
        = ⟨false, some (itemLimitUserMessage 1000), fullStorage⟩ ∧
      handleCaptureScreenshot fullStorage 0 "id1" 5 "d" "u"
        = ⟨false, some (itemLimitUserMessage 1000), fullStorage⟩ :=
  capture_rejects_at_item_limit fullStorage 0 "id1" 5 "https://x/" "x" "s" "a" "d" "u"
    (by
      show 1000 ≤ (List.replicate 1000 demoItem).length
      rw [List.length_replicate])

end NotesExt
